import Mathlib

/-!
Shallow embedding of the synthetic columnar data generators found in
src/profiling/parquet-cpp/prelim.cc of the fast-p2a repository, together
with the argument check of its main function.

Machine integers are modelled as Nat and Int with explicit reduction
modulo 2 ^ 64 and 2 ^ 32.  The pseudo-random engines are modelled as draw
streams of type Nat → Nat, one stream entry per call of the engine,
reduced to the engine output range at each call site: the mt19937_64
engine yields 64-bit unsigned draws (reduction modulo 2 ^ 64), while the
C library rand function yields a nonnegative int bounded by RAND_MAX,
which is 2 ^ 31 - 1 on the glibc platform the benchmark targets
(reduction modulo 2 ^ 31).  A remainder whose divisor would be zero is
undefined behaviour in C, so the embedded value emitter returns none in
that case and a value otherwise.
-/

/-- Conversion of an unsigned 64-bit quantity to its signed int64_t
interpretation (two's complement), as performed by the C++ assignment
modulo = 1ULL << e in prelim.cc line 164. -/
def asInt64 (u : Nat) : Int :=
  if u % 2 ^ 64 < 2 ^ 63 then ((u % 2 ^ 64 : Nat) : Int)
  else ((u % 2 ^ 64 : Nat) : Int) - 2 ^ 64

/-- Conversion of a signed int64_t value to the unsigned 64-bit quantity
that the C++ usual arithmetic conversions produce when the value meets a
uint64_t operand, as in gen() % modulo in prelim.cc line 166. -/
def asUInt64 (z : Int) : Nat := (z % 2 ^ 64).toNat

/-- Conversion of an unsigned 32-bit quantity to its signed int
interpretation (two's complement), as performed by the C++ assignment
modulo = 1U << e in prelim.cc line 214. -/
def asInt32 (u : Nat) : Int :=
  if u % 2 ^ 32 < 2 ^ 31 then ((u % 2 ^ 32 : Nat) : Int)
  else ((u % 2 ^ 32 : Nat) : Int) - 2 ^ 32

/-- Unsigned 32-bit reading of a signed int value, used to express the
power-of-two modulus actually bounding the generated values. -/
def asUInt32 (z : Int) : Nat := (z % 2 ^ 32).toNat

/-- Exponent selection gen() % 64 of prelim.cc line 164: the mt19937_64
draw is a 64-bit unsigned value, reduced modulo 64. -/
def exp64OfDraw (d : Nat) : Nat := d % 2 ^ 64 % 64

/-- Exponent selection rand() % 32 of prelim.cc line 214: the rand draw
is a nonnegative int below 2 ^ 31, reduced modulo 32. -/
def exp32OfDraw (d : Nat) : Nat := d % 2 ^ 31 % 32

/-- One loop iteration of either varied-bit-width generator, observed
from outside: the modulo variable as stored during the iteration, the
emitted number (none when the C remainder would divide by zero, which is
undefined behaviour), and whether this iteration drew a fresh modulus. -/
structure GenEntry where
  modulo : Int
  number : Option Int
  newRun : Bool
deriving DecidableEq

/-- The conditional at prelim.cc lines 163-165: when i % run_length == 0
a fresh modulus 1ULL << (gen() % 64) is stored into the int64_t modulo
variable, consuming one stream draw; otherwise the state is unchanged.
The state is the pair of the modulo variable and the next unread stream
position. -/
def int64Boundary (run_length : Nat) (s : Nat → Nat) (i : Nat) (st : Int × Nat) :
    Int × Nat :=
  if i % run_length = 0 then (asInt64 (2 ^ exp64OfDraw (s st.2)), st.2 + 1) else st

/-- State of the int64 generator loop before iteration i: the modulo
variable (initialized to 0 at prelim.cc line 146) and the next unread
stream position.  Each earlier iteration applied the boundary step and
then consumed one draw for its value. -/
def int64State (run_length : Nat) (s : Nat → Nat) : Nat → Int × Nat
  | 0 => (0, 0)
  | i + 1 =>
    ((int64Boundary run_length s i (int64State run_length s i)).1,
     (int64Boundary run_length s i (int64State run_length s i)).2 + 1)

/-- Body of one int64 generator iteration given the post-boundary state b
and the raw value draw: number is the draw (a 64-bit unsigned quantity)
reduced by the unsigned reading of modulo, then stored back into an
int64_t (prelim.cc line 166).  A zero divisor would be undefined
behaviour and is mapped to none. -/
def int64EntryCore (run_length i : Nat) (b : Int × Nat) (draw : Nat) : GenEntry :=
  { modulo := b.1
    number := if asUInt64 b.1 = 0 then none
      else some (asInt64 (draw % 2 ^ 64 % asUInt64 b.1))
    newRun := decide (i % run_length = 0) }

/-- Observation of iteration i of the int64 generator loop (prelim.cc
lines 162-175): the boundary step is applied, then the value draw is
taken at the post-boundary stream position. -/
def int64Entry (run_length : Nat) (s : Nat → Nat) (i : Nat) : GenEntry :=
  int64EntryCore run_length i (int64Boundary run_length s i (int64State run_length s i))
    (s (int64Boundary run_length s i (int64State run_length s i)).2)

/-- Direct transcription of the for loop of
generate_int64_delta_varied_bit_width_table (prelim.cc lines 162-176),
recursing on the number of remaining iterations with the loop state
threaded through. -/
def int64Loop (run_length : Nat) (s : Nat → Nat) :
    Nat → Int × Nat → Nat → List GenEntry
  | _, _, 0 => []
  | i, st, fuel + 1 =>
    (fun b =>
      (fun mu =>
        { modulo := b.1
          number := if mu = 0 then none else some (asInt64 (s b.2 % 2 ^ 64 % mu))
          newRun := decide (i % run_length = 0) } ::
        int64Loop run_length s (i + 1) (b.1, b.2 + 1) fuel)
      (asUInt64 b.1))
    (int64Boundary run_length s i st)

/-- Embedding of generate_int64_delta_varied_bit_width_table (prelim.cc
lines 142-193): num_values iterations starting at index 0 with the
modulo variable initialized to 0 and the stream unread. -/
def generate_int64_delta_varied_bit_width_table (num_values run_length : Nat)
    (s : Nat → Nat) : List GenEntry :=
  int64Loop run_length s 0 (0, 0) num_values

/-- The in-memory int64 column: the sequence of numbers appended to the
arrow builder at prelim.cc line 170, one per iteration.  The default 0
is never used when run_length is positive, since the modulo variable is
assigned a nonzero value before the first remainder. -/
def int64Column (num_values run_length : Nat) (s : Nat → Nat) : List Int :=
  (generate_int64_delta_varied_bit_width_table num_values run_length s).map
    (fun e => e.number.getD 0)

/-- The conditional at prelim.cc lines 213-215: when i % run_length == 0
a fresh modulus 1U << (rand() % 32) is stored into the int modulo
variable, consuming one rand draw; otherwise the state is unchanged. -/
def int32Boundary (run_length : Nat) (s : Nat → Nat) (i : Nat) (st : Int × Nat) :
    Int × Nat :=
  if i % run_length = 0 then (asInt32 (2 ^ exp32OfDraw (s st.2)), st.2 + 1) else st

/-- State of the int32 generator loop before iteration i: the modulo
variable (initialized to 0 at prelim.cc line 199) and the next unread
rand draw position. -/
def int32State (run_length : Nat) (s : Nat → Nat) : Nat → Int × Nat
  | 0 => (0, 0)
  | i + 1 =>
    ((int32Boundary run_length s i (int32State run_length s i)).1,
     (int32Boundary run_length s i (int32State run_length s i)).2 + 1)

/-- Body of one int32 generator iteration: number = rand() % modulo is a
remainder of two signed ints with C truncated semantics, embedded as
Int.tmod; the rand draw is a nonnegative int below 2 ^ 31.  A zero
divisor would be undefined behaviour and is mapped to none. -/
def int32EntryCore (run_length i : Nat) (b : Int × Nat) (draw : Nat) : GenEntry :=
  { modulo := b.1
    number := if b.1 = 0 then none
      else some (Int.tmod ((draw % 2 ^ 31 : Nat) : Int) b.1)
    newRun := decide (i % run_length = 0) }

/-- Observation of iteration i of the int32 generator loop (prelim.cc
lines 212-225). -/
def int32Entry (run_length : Nat) (s : Nat → Nat) (i : Nat) : GenEntry :=
  int32EntryCore run_length i (int32Boundary run_length s i (int32State run_length s i))
    (s (int32Boundary run_length s i (int32State run_length s i)).2)

/-- Direct transcription of the for loop of
generate_int32_delta_varied_bit_width_table (prelim.cc lines 212-226). -/
def int32Loop (run_length : Nat) (s : Nat → Nat) :
    Nat → Int × Nat → Nat → List GenEntry
  | _, _, 0 => []
  | i, st, fuel + 1 =>
    (fun (b : Int × Nat) =>
      { modulo := b.1
        number := if b.1 = 0 then none
          else some (Int.tmod ((s b.2 % 2 ^ 31 : Nat) : Int) b.1)
        newRun := decide (i % run_length = 0) } ::
      int32Loop run_length s (i + 1) (b.1, b.2 + 1) fuel)
    (int32Boundary run_length s i st)

/-- Embedding of generate_int32_delta_varied_bit_width_table (prelim.cc
lines 195-243). -/
def generate_int32_delta_varied_bit_width_table (num_values run_length : Nat)
    (s : Nat → Nat) : List GenEntry :=
  int32Loop run_length s 0 (0, 0) num_values

/-- Decimal digits, most significant first, by structural recursion on a
fuel bound so that the kernel can evaluate the definition. -/
def decDigitsAux : Nat → Nat → List Nat
  | 0, _ => []
  | fuel + 1, n => if n = 0 then [] else decDigitsAux fuel (n / 10) ++ [n % 10]

/-- Decimal digits of a natural number, most significant first; empty
for zero. -/
def decDigits (n : Nat) : List Nat := decDigitsAux n n

/-- Character for one decimal digit. -/
def decDigitChar (d : Nat) : Char := Char.ofNat (48 + d)

/-- Decimal rendering of a natural number as the C++ stream insertion
operator produces it. -/
def decRenderNat (n : Nat) : List Char :=
  if n = 0 then ['0'] else (decDigits n).map decDigitChar

/-- Decimal rendering of a signed value: sign character for negatives,
then the digits of the magnitude, as dec_check_file << number at
prelim.cc line 173 produces for an int64_t. -/
def decRenderInt (v : Int) : List Char :=
  if v < 0 then '-' :: decRenderNat v.natAbs else decRenderNat v.natAbs

/-- Lines of the decimal sidecar file delta_varied_int64array.dec: one
decimal text line per emitted value, appended inside the loop at
prelim.cc line 173 when write_to_file holds. -/
def decSidecarLines (write_to_file : Bool) (num_values run_length : Nat)
    (s : Nat → Nat) : List (List Char) :=
  if write_to_file then (int64Column num_values run_length s).map decRenderInt
  else []

/-- Reading one decimal digit character back. -/
def charToDecDigit (c : Char) : Option Nat :=
  if 48 ≤ c.toNat ∧ c.toNat ≤ 57 then some (c.toNat - 48) else none

/-- Reading a decimal digit string back into a natural number. -/
def decReadNat (cs : List Char) : Option Nat :=
  cs.foldl (fun acc c => acc.bind fun a => (charToDecDigit c).map fun d => 10 * a + d)
    (some 0)

/-- Reading one line of the decimal sidecar back into an integer, the
way an independent consumer parses the file. -/
def decReadInt (cs : List Char) : Option Int :=
  match cs with
  | [] => none
  | c :: rest =>
    if c = '-' then (decReadNat rest).map (fun n => -(n : Int))
    else (decReadNat cs).map (fun n => (n : Int))

/-- Hexadecimal digits, most significant first, by structural recursion
on a fuel bound so that the kernel can evaluate the definition. -/
def hexDigitsAux : Nat → Nat → List Nat
  | 0, _ => []
  | fuel + 1, n => if n = 0 then [] else hexDigitsAux fuel (n / 16) ++ [n % 16]

/-- Hexadecimal digits of a natural number, most significant first;
empty for zero. -/
def hexDigits (n : Nat) : List Nat := hexDigitsAux n n

/-- Character for one hexadecimal digit, lowercase as the default C++
stream formatting produces. -/
def hexDigitChar (d : Nat) : Char :=
  if d < 10 then Char.ofNat (48 + d) else Char.ofNat (87 + d)

/-- Hexadecimal rendering with std::setfill of '0' and std::setw of 8
(prelim.cc line 174): the digit string is left padded with '0' up to a
minimum field width of 8; longer digit strings are not truncated. -/
def hexRenderPad8 (n : Nat) : List Char :=
  (fun ds => List.replicate (8 - ds.length) '0' ++ ds)
    (if n = 0 then ['0'] else (hexDigits n).map hexDigitChar)

/-- One line of the hexadecimal sidecar for an int64_t value: with the
hex basefield the stream renders the corresponding unsigned value. -/
def hexLineInt64 (v : Int) : List Char := hexRenderPad8 (asUInt64 v)

/-- Lines of the hexadecimal sidecar file delta_varied_int64array.hex,
appended inside the loop at prelim.cc line 174 when write_to_file
holds. -/
def hexSidecarLines (write_to_file : Bool) (num_values run_length : Nat)
    (s : Nat → Nat) : List (List Char) :=
  if write_to_file then (int64Column num_values run_length s).map hexLineInt64
  else []

/-- Reading one hexadecimal digit character back (lowercase letters). -/
def charToHexDigit (c : Char) : Option Nat :=
  if 48 ≤ c.toNat ∧ c.toNat ≤ 57 then some (c.toNat - 48)
  else if 97 ≤ c.toNat ∧ c.toNat ≤ 102 then some (c.toNat - 87)
  else none

/-- Reading a hexadecimal digit string back into a natural number. -/
def hexReadNat (cs : List Char) : Option Nat :=
  cs.foldl (fun acc c => acc.bind fun a => (charToHexDigit c).map fun d => 16 * a + d)
    (some 0)

/-- Output channels of the driver process. -/
inductive ConsoleChannel where
  | stdout
  | stderr
deriving DecidableEq

/-- The usage text printed by main (prelim.cc line 476). -/
def usageMessage : List Char :=
  "Usage: prelim num_values [iterations] [modulo]".toList

/-- Argument check of main (prelim.cc lines 474-478): when argc < 2 the
usage message is inserted into std::cout and main returns 1; otherwise
the program proceeds and the usage path is not taken.  The result is
the channel carrying the usage text and the exit status, when the usage
path is taken. -/
def usageCheck (argc : Nat) : Option (ConsoleChannel × Nat) :=
  if argc < 2 then some (ConsoleChannel.stdout, 1) else none

/-- The pseudo-random sources appearing in the two varied-bit-width
generators. -/
inductive RandSource where
  | mt19937_64
  | c_rand
deriving DecidableEq

/-- The engine the int64 varied-bit-width generator draws from: the
std::mt19937_64 instance constructed at prelim.cc line 153 and called at
lines 164 and 166. -/
def int64GenRandSource : RandSource := RandSource.mt19937_64

/-- The engine the int32 varied-bit-width generator draws from: the C
library rand function called at prelim.cc lines 214 and 216. -/
def int32GenRandSource : RandSource := RandSource.c_rand

/-- A mt19937_64 draw as consumed by the embedding: a 64-bit unsigned
value. -/
def draw64 (s : Nat → Nat) (p : Nat) : Nat := s p % 2 ^ 64

/-- A rand draw as consumed by the embedding: a nonnegative int, below
2 ^ 31 on the targeted platform. -/
def drawRand (s : Nat → Nat) (p : Nat) : Nat := s p % 2 ^ 31

/-- Stream used by concrete witnesses below. -/
def witnessStreamA : Nat → Nat := fun j => j

/-- Stream agreeing with witnessStreamA on the draws the witness run
consumes and differing beyond them. -/
def witnessStreamB : Nat → Nat := fun j => if j < 4 then j else j + 7

/-- Stream exhibiting hexadecimal sidecar lines of different lengths:
run one draws exponent 0 (an 8 character line for value 0), run two
draws exponent 63 and a value of 2 ^ 35 (a 9 character line). -/
def hexWitnessStream : Nat → Nat :=
  fun j => if j = 2 then 63 else if j = 3 then 2 ^ 35 else 0

theorem int64State_succ (run_length : Nat) (s : Nat → Nat) (i : Nat) :
    int64State run_length s (i + 1) =
      ((int64Boundary run_length s i (int64State run_length s i)).1,
       (int64Boundary run_length s i (int64State run_length s i)).2 + 1) := rfl

theorem int64Loop_eq_map (run_length : Nat) (s : Nat → Nat) :
    ∀ (fuel i : Nat),
      int64Loop run_length s i (int64State run_length s i) fuel =
        (List.range' i fuel).map (int64Entry run_length s) := by
  intro fuel
  induction fuel with
  | zero => intro i; rfl
  | succ n ih =>
    intro i
    have hs := int64State_succ run_length s i
    simp only [int64Loop, List.range', List.map_cons]
    refine congrArg₂ List.cons rfl ?_
    rw [← hs, ih (i + 1)]

theorem generate64_eq_map (num_values run_length : Nat) (s : Nat → Nat) :
    generate_int64_delta_varied_bit_width_table num_values run_length s =
      (List.range num_values).map (int64Entry run_length s) := by
  rw [generate_int64_delta_varied_bit_width_table,
    show ((0 : Int), (0 : Nat)) = int64State run_length s 0 from rfl,
    int64Loop_eq_map, List.range_eq_range']

theorem int32State_succ (run_length : Nat) (s : Nat → Nat) (i : Nat) :
    int32State run_length s (i + 1) =
      ((int32Boundary run_length s i (int32State run_length s i)).1,
       (int32Boundary run_length s i (int32State run_length s i)).2 + 1) := rfl

theorem int32Loop_eq_map (run_length : Nat) (s : Nat → Nat) :
    ∀ (fuel i : Nat),
      int32Loop run_length s i (int32State run_length s i) fuel =
        (List.range' i fuel).map (int32Entry run_length s) := by
  intro fuel
  induction fuel with
  | zero => intro i; rfl
  | succ n ih =>
    intro i
    have hs := int32State_succ run_length s i
    simp only [int32Loop, List.range', List.map_cons]
    refine congrArg₂ List.cons rfl ?_
    rw [← hs, ih (i + 1)]

theorem generate32_eq_map (num_values run_length : Nat) (s : Nat → Nat) :
    generate_int32_delta_varied_bit_width_table num_values run_length s =
      (List.range num_values).map (int32Entry run_length s) := by
  rw [generate_int32_delta_varied_bit_width_table,
    show ((0 : Int), (0 : Nat)) = int32State run_length s 0 from rfl,
    int32Loop_eq_map, List.range_eq_range']

theorem exp64OfDraw_lt (d : Nat) : exp64OfDraw d < 64 :=
  Nat.mod_lt _ (by norm_num)

theorem exp32OfDraw_lt (d : Nat) : exp32OfDraw d < 32 :=
  Nat.mod_lt _ (by norm_num)

theorem asInt64_of_lt (u : Nat) (h : u < 2 ^ 63) : asInt64 u = (u : Int) := by
  have h64 : u < 2 ^ 64 := lt_trans h (by norm_num)
  rw [asInt64, Nat.mod_eq_of_lt h64, if_pos h]

theorem asUInt64_asInt64 (u : Nat) (h : u < 2 ^ 64) :
    asUInt64 (asInt64 u) = u := by
  rw [asInt64, Nat.mod_eq_of_lt h, asUInt64]
  split
  · rw [Int.emod_eq_of_lt (by positivity) (by exact_mod_cast h)]
    exact Int.toNat_natCast u
  · have hcast : ((u : Int) - 2 ^ 64) % 2 ^ 64 = (u : Int) := by
      rw [Int.sub_emod, Int.emod_self, sub_zero, Int.emod_emod_of_dvd _ dvd_rfl,
        Int.emod_eq_of_lt (by positivity) (by exact_mod_cast h)]
    rw [hcast]
    exact Int.toNat_natCast u

theorem asUInt32_asInt32 (u : Nat) (h : u < 2 ^ 32) :
    asUInt32 (asInt32 u) = u := by
  rw [asInt32, Nat.mod_eq_of_lt h, asUInt32]
  split
  · rw [Int.emod_eq_of_lt (by positivity) (by exact_mod_cast h)]
    exact Int.toNat_natCast u
  · have hcast : ((u : Int) - 2 ^ 32) % 2 ^ 32 = (u : Int) := by
      rw [Int.sub_emod, Int.emod_self, sub_zero, Int.emod_emod_of_dvd _ dvd_rfl,
        Int.emod_eq_of_lt (by positivity) (by exact_mod_cast h)]
    rw [hcast]
    exact Int.toNat_natCast u

theorem asInt32_ne_zero (u : Nat) (h0 : 0 < u) (h : u < 2 ^ 32) :
    asInt32 u ≠ 0 := by
  rw [asInt32, Nat.mod_eq_of_lt h]
  split
  · intro hz
    have : u = 0 := by exact_mod_cast hz
    omega
  · intro hz
    have : ((u : Int)) = 2 ^ 32 := by linarith [sub_eq_zero.mp hz]
    have : u = 2 ^ 32 := by exact_mod_cast this
    omega

theorem int64Entry_modulo_eq (run_length : Nat) (s : Nat → Nat) (i : Nat) :
    (int64Entry run_length s i).modulo =
      (int64Boundary run_length s i (int64State run_length s i)).1 := rfl

theorem int32Entry_modulo_eq (run_length : Nat) (s : Nat → Nat) (i : Nat) :
    (int32Entry run_length s i).modulo =
      (int32Boundary run_length s i (int32State run_length s i)).1 := rfl

theorem int64Entry_newRun (run_length : Nat) (s : Nat → Nat) (i : Nat) :
    (int64Entry run_length s i).newRun = decide (i % run_length = 0) := rfl

theorem int32Entry_newRun (run_length : Nat) (s : Nat → Nat) (i : Nat) :
    (int32Entry run_length s i).newRun = decide (i % run_length = 0) := rfl

theorem int64Entry_modulo_const (run_length : Nat) (s : Nat → Nat) (i : Nat)
    (h : (i + 1) % run_length ≠ 0) :
    (int64Entry run_length s (i + 1)).modulo = (int64Entry run_length s i).modulo := by
  rw [int64Entry_modulo_eq, int64Entry_modulo_eq, int64Boundary, if_neg h,
    int64State_succ]

theorem int32Entry_modulo_const (run_length : Nat) (s : Nat → Nat) (i : Nat)
    (h : (i + 1) % run_length ≠ 0) :
    (int32Entry run_length s (i + 1)).modulo = (int32Entry run_length s i).modulo := by
  rw [int32Entry_modulo_eq, int32Entry_modulo_eq, int32Boundary, if_neg h,
    int32State_succ]

theorem int64Entry_modulo_shape (run_length : Nat) (s : Nat → Nat)
    (hL : 0 < run_length) :
    ∀ i : Nat, ∃ e : Nat, e < 64 ∧
      (int64Entry run_length s i).modulo = asInt64 (2 ^ e) := by
  intro i
  induction i with
  | zero =>
    refine ⟨exp64OfDraw (s 0), exp64OfDraw_lt _, ?_⟩
    rw [int64Entry_modulo_eq, int64Boundary, if_pos (Nat.zero_mod run_length)]
    rfl
  | succ n ih =>
    by_cases h : (n + 1) % run_length = 0
    · refine ⟨exp64OfDraw (s (int64State run_length s (n + 1)).2), exp64OfDraw_lt _, ?_⟩
      rw [int64Entry_modulo_eq, int64Boundary, if_pos h]
    · obtain ⟨e, he, hm⟩ := ih
      exact ⟨e, he, by rw [int64Entry_modulo_const run_length s n h, hm]⟩

theorem int32Entry_modulo_shape (run_length : Nat) (s : Nat → Nat)
    (hL : 0 < run_length) :
    ∀ i : Nat, ∃ e : Nat, e < 32 ∧
      (int32Entry run_length s i).modulo = asInt32 (2 ^ e) := by
  intro i
  induction i with
  | zero =>
    refine ⟨exp32OfDraw (s 0), exp32OfDraw_lt _, ?_⟩
    rw [int32Entry_modulo_eq, int32Boundary, if_pos (Nat.zero_mod run_length)]
    rfl
  | succ n ih =>
    by_cases h : (n + 1) % run_length = 0
    · refine ⟨exp32OfDraw (s (int32State run_length s (n + 1)).2), exp32OfDraw_lt _, ?_⟩
      rw [int32Entry_modulo_eq, int32Boundary, if_pos h]
    · obtain ⟨e, he, hm⟩ := ih
      exact ⟨e, he, by rw [int32Entry_modulo_const run_length s n h, hm]⟩

theorem asUInt64_modulo_shape (run_length : Nat) (s : Nat → Nat)
    (hL : 0 < run_length) (i : Nat) :
    ∃ e : Nat, e < 64 ∧ asUInt64 (int64Entry run_length s i).modulo = 2 ^ e := by
  obtain ⟨e, he, hm⟩ := int64Entry_modulo_shape run_length s hL i
  exact ⟨e, he, by
    rw [hm, asUInt64_asInt64 _ (Nat.pow_lt_pow_right (by norm_num) he)]⟩

theorem asUInt32_modulo_shape (run_length : Nat) (s : Nat → Nat)
    (hL : 0 < run_length) (i : Nat) :
    ∃ e : Nat, e < 32 ∧ asUInt32 (int32Entry run_length s i).modulo = 2 ^ e := by
  obtain ⟨e, he, hm⟩ := int32Entry_modulo_shape run_length s hL i
  exact ⟨e, he, by
    rw [hm, asUInt32_asInt32 _ (Nat.pow_lt_pow_right (by norm_num) he)]⟩

theorem int64ValuePos_eq (run_length : Nat) (s : Nat → Nat) (i : Nat) :
    (int64Entry run_length s i).number =
      (fun mu => if mu = 0 then none
        else some (asInt64
          (s (int64Boundary run_length s i (int64State run_length s i)).2 % 2 ^ 64 % mu)))
      (asUInt64 (int64Entry run_length s i).modulo) := rfl

theorem int32ValuePos_eq (run_length : Nat) (s : Nat → Nat) (i : Nat) :
    (int32Entry run_length s i).number =
      (fun m => if m = 0 then none
        else some (Int.tmod
          ((s (int32Boundary run_length s i (int32State run_length s i)).2 % 2 ^ 31 : Nat) : Int) m))
      ((int32Entry run_length s i).modulo) := rfl

theorem int64Entry_number_spec (run_length : Nat) (s : Nat → Nat)
    (hL : 0 < run_length) (i : Nat) :
    ∃ e : Nat, e < 64 ∧ asUInt64 (int64Entry run_length s i).modulo = 2 ^ e ∧
      ∃ v : Int, (int64Entry run_length s i).number = some v ∧ 0 ≤ v ∧ v < 2 ^ e := by
  obtain ⟨e, he, hmu⟩ := asUInt64_modulo_shape run_length s hL i
  refine ⟨e, he, hmu, ?_⟩
  have hne : (2 : Nat) ^ e ≠ 0 := Nat.pos_iff_ne_zero.mp (Nat.pos_pow_of_pos e (by norm_num))
  have hlt : s (int64Boundary run_length s i (int64State run_length s i)).2 % 2 ^ 64 % 2 ^ e
      < 2 ^ e := Nat.mod_lt _ (Nat.pos_of_ne_zero hne)
  have hsmall : s (int64Boundary run_length s i (int64State run_length s i)).2 % 2 ^ 64 % 2 ^ e
      < 2 ^ 63 :=
    lt_of_lt_of_le hlt (Nat.pow_le_pow_right (by norm_num) (by omega))
  refine ⟨asInt64
      (s (int64Boundary run_length s i (int64State run_length s i)).2 % 2 ^ 64 % 2 ^ e),
    ?_, ?_, ?_⟩
  · rw [int64ValuePos_eq, hmu]
    simp only [if_neg hne]
  · rw [asInt64_of_lt _ hsmall]
    positivity
  · rw [asInt64_of_lt _ hsmall]
    exact_mod_cast hlt

theorem int32Entry_number_isSome (run_length : Nat) (s : Nat → Nat)
    (hL : 0 < run_length) (i : Nat) :
    (int32Entry run_length s i).number.isSome = true := by
  obtain ⟨e, he, hm⟩ := int32Entry_modulo_shape run_length s hL i
  have hne : (int32Entry run_length s i).modulo ≠ 0 := by
    rw [hm]
    exact asInt32_ne_zero _ (Nat.pos_pow_of_pos e (by norm_num))
      (Nat.pow_lt_pow_right (by norm_num) he)
  rw [int32ValuePos_eq]
  simp only [if_neg hne, Option.isSome_some]

theorem int64Entry_number_isSome (run_length : Nat) (s : Nat → Nat)
    (hL : 0 < run_length) (i : Nat) :
    (int64Entry run_length s i).number.isSome = true := by
  obtain ⟨e, he, hmu, v, hv, _, _⟩ := int64Entry_number_spec run_length s hL i
  rw [hv]
  rfl

theorem int64Boundary_pos (run_length : Nat) (s : Nat → Nat) (i : Nat) (st : Int × Nat) :
    (int64Boundary run_length s i st).2 =
      if i % run_length = 0 then st.2 + 1 else st.2 := by
  rw [int64Boundary]
  split <;> rfl

theorem int64State_pos_mono (run_length : Nat) (s : Nat → Nat) (i : Nat) :
    (int64State run_length s i).2 < (int64State run_length s (i + 1)).2 := by
  rw [int64State_succ, int64Boundary_pos]
  split <;> omega

theorem int64State_pos_le (run_length : Nat) (s : Nat → Nat) (i k : Nat) (h : i ≤ k) :
    (int64State run_length s i).2 ≤ (int64State run_length s k).2 := by
  induction h with
  | refl => exact le_refl _
  | step h ih => exact le_trans ih (le_of_lt (int64State_pos_mono run_length s _))

theorem int64State_congr (run_length : Nat) (s1 s2 : Nat → Nat) (n : Nat)
    (hs : ∀ j, j < (int64State run_length s1 n).2 → s1 j = s2 j) :
    ∀ i, i ≤ n → int64State run_length s1 i = int64State run_length s2 i := by
  intro i
  induction i with
  | zero => intro _; rfl
  | succ m ih =>
    intro hm
    have hmn : m ≤ n := le_trans (Nat.le_succ m) hm
    have hst := ih hmn
    rw [int64State_succ, int64State_succ, ← hst, int64Boundary, int64Boundary]
    split
    · have hlt : (int64State run_length s1 m).2 < (int64State run_length s1 n).2 :=
        lt_of_lt_of_le (int64State_pos_mono run_length s1 m)
          (int64State_pos_le run_length s1 (m + 1) n hm)
      rw [hs _ hlt]
    · rfl

theorem int64Entry_congr (run_length : Nat) (s1 s2 : Nat → Nat) (n : Nat)
    (hs : ∀ j, j < (int64State run_length s1 n).2 → s1 j = s2 j)
    (i : Nat) (hi : i < n) :
    int64Entry run_length s1 i = int64Entry run_length s2 i := by
  have hst : int64State run_length s1 i = int64State run_length s2 i :=
    int64State_congr run_length s1 s2 n hs i (le_of_lt hi)
  have hb : int64Boundary run_length s1 i (int64State run_length s1 i) =
      int64Boundary run_length s2 i (int64State run_length s2 i) := by
    rw [← hst, int64Boundary, int64Boundary]
    split
    · have hlt : (int64State run_length s1 i).2 < (int64State run_length s1 n).2 :=
        lt_of_lt_of_le (int64State_pos_mono run_length s1 i)
          (int64State_pos_le run_length s1 (i + 1) n hi)
      rw [hs _ hlt]
    · rfl
  have hvp : s1 (int64Boundary run_length s1 i (int64State run_length s1 i)).2 =
      s2 (int64Boundary run_length s1 i (int64State run_length s1 i)).2 := by
    apply hs
    have h1 : (int64Boundary run_length s1 i (int64State run_length s1 i)).2 <
        (int64State run_length s1 (i + 1)).2 := by
      rw [int64State_succ]
      omega
    exact lt_of_lt_of_le h1 (int64State_pos_le run_length s1 (i + 1) n hi)
  rw [int64Entry, int64Entry, ← hb, ← hvp]

theorem generate64_congr (num_values run_length : Nat) (s1 s2 : Nat → Nat)
    (hs : ∀ j, j < (int64State run_length s1 num_values).2 → s1 j = s2 j) :
    generate_int64_delta_varied_bit_width_table num_values run_length s1 =
      generate_int64_delta_varied_bit_width_table num_values run_length s2 := by
  rw [generate64_eq_map, generate64_eq_map]
  apply List.map_congr_left
  intro i hi
  exact int64Entry_congr run_length s1 s2 num_values hs i (List.mem_range.mp hi)

theorem generate64_length (num_values run_length : Nat) (s : Nat → Nat) :
    (generate_int64_delta_varied_bit_width_table num_values run_length s).length =
      num_values := by
  rw [generate64_eq_map, List.length_map, List.length_range]

theorem countP_newRun64 (num_values run_length : Nat) (s : Nat → Nat) :
    (generate_int64_delta_varied_bit_width_table num_values run_length s).countP
        (fun e => e.newRun) =
      (List.range num_values).countP (fun i => decide (i % run_length = 0)) := by
  rw [generate64_eq_map, List.countP_map]
  rfl

theorem countP_boundary_of_lt (num_values run_length : Nat)
    (h0 : 0 < num_values) (h : num_values < run_length) :
    (List.range num_values).countP (fun i => decide (i % run_length = 0)) = 1 := by
  induction num_values with
  | zero => omega
  | succ m ih =>
    rw [List.range_succ, List.countP_append]
    rcases Nat.eq_zero_or_pos m with hm0 | hmpos
    · subst hm0
      simp [List.countP_cons, Nat.zero_mod]
    · have hmL : m % run_length = m := Nat.mod_eq_of_lt (by omega)
      have hne : ¬ (m % run_length = 0) := by omega
      rw [ih hmpos (by omega)]
      simp [List.countP_cons, hne]

theorem int64Entry_modulo_eq_first (run_length : Nat) (s : Nat → Nat) :
    ∀ i, i < run_length →
      (int64Entry run_length s i).modulo = (int64Entry run_length s 0).modulo := by
  intro i
  induction i with
  | zero => intro _; rfl
  | succ m ih =>
    intro hm
    have hne : (m + 1) % run_length ≠ 0 := by
      rw [Nat.mod_eq_of_lt hm]
      omega
    rw [int64Entry_modulo_const run_length s m hne]
    exact ih (by omega)

theorem decDigitsAux_congr :
    ∀ fuel1 fuel2 n : Nat, n ≤ fuel1 → n ≤ fuel2 →
      decDigitsAux fuel1 n = decDigitsAux fuel2 n := by
  intro fuel1
  induction fuel1 with
  | zero =>
    intro fuel2 n h1 _
    have hn : n = 0 := by omega
    subst hn
    cases fuel2 with
    | zero => rfl
    | succ f => simp [decDigitsAux]
  | succ f1 ih =>
    intro fuel2 n h1 h2
    by_cases hn : n = 0
    · subst hn
      cases fuel2 with
      | zero => rfl
      | succ f => simp [decDigitsAux]
    · cases fuel2 with
      | zero => omega
      | succ f2 =>
        have hdiv : n / 10 ≤ f1 := by
          have := Nat.div_lt_self (Nat.pos_of_ne_zero hn) (show 1 < 10 by norm_num)
          omega
        have hdiv2 : n / 10 ≤ f2 := by
          have := Nat.div_lt_self (Nat.pos_of_ne_zero hn) (show 1 < 10 by norm_num)
          omega
        simp only [decDigitsAux, if_neg hn]
        rw [ih f2 (n / 10) hdiv hdiv2]

theorem decDigits_eq (n : Nat) :
    decDigits n = if n = 0 then [] else decDigits (n / 10) ++ [n % 10] := by
  rw [decDigits, decDigits]
  cases n with
  | zero => rfl
  | succ m =>
    simp only [decDigitsAux, if_neg (Nat.succ_ne_zero m)]
    have hdiv : (m + 1) / 10 ≤ m := by
      have := Nat.div_lt_self (Nat.succ_pos m) (show 1 < 10 by norm_num)
      omega
    rw [decDigitsAux_congr m ((m + 1) / 10) ((m + 1) / 10) hdiv (le_refl _)]

theorem hexDigitsAux_congr :
    ∀ fuel1 fuel2 n : Nat, n ≤ fuel1 → n ≤ fuel2 →
      hexDigitsAux fuel1 n = hexDigitsAux fuel2 n := by
  intro fuel1
  induction fuel1 with
  | zero =>
    intro fuel2 n h1 _
    have hn : n = 0 := by omega
    subst hn
    cases fuel2 with
    | zero => rfl
    | succ f => simp [hexDigitsAux]
  | succ f1 ih =>
    intro fuel2 n h1 h2
    by_cases hn : n = 0
    · subst hn
      cases fuel2 with
      | zero => rfl
      | succ f => simp [hexDigitsAux]
    · cases fuel2 with
      | zero => omega
      | succ f2 =>
        have hdiv : n / 16 ≤ f1 := by
          have := Nat.div_lt_self (Nat.pos_of_ne_zero hn) (show 1 < 16 by norm_num)
          omega
        have hdiv2 : n / 16 ≤ f2 := by
          have := Nat.div_lt_self (Nat.pos_of_ne_zero hn) (show 1 < 16 by norm_num)
          omega
        simp only [hexDigitsAux, if_neg hn]
        rw [ih f2 (n / 16) hdiv hdiv2]

theorem hexDigits_eq (n : Nat) :
    hexDigits n = if n = 0 then [] else hexDigits (n / 16) ++ [n % 16] := by
  rw [hexDigits, hexDigits]
  cases n with
  | zero => rfl
  | succ m =>
    simp only [hexDigitsAux, if_neg (Nat.succ_ne_zero m)]
    have hdiv : (m + 1) / 16 ≤ m := by
      have := Nat.div_lt_self (Nat.succ_pos m) (show 1 < 16 by norm_num)
      omega
    rw [hexDigitsAux_congr m ((m + 1) / 16) ((m + 1) / 16) hdiv (le_refl _)]

theorem decDigits_lt (n : Nat) : ∀ d ∈ decDigits n, d < 10 := by
  induction n using Nat.strong_induction_on with
  | _ n ih =>
    rw [decDigits_eq]
    split_ifs with h
    · intro d hd
      exact absurd hd (List.not_mem_nil d)
    · intro d hd
      rw [List.mem_append] at hd
      rcases hd with hd | hd
      · exact ih _ (Nat.div_lt_self (Nat.pos_of_ne_zero h) (by norm_num)) d hd
      · rw [List.mem_singleton] at hd
        subst hd
        exact Nat.mod_lt _ (by norm_num)

theorem decDigits_foldl (n : Nat) :
    (decDigits n).foldl (fun a d => 10 * a + d) 0 = n := by
  induction n using Nat.strong_induction_on with
  | _ n ih =>
    rw [decDigits_eq]
    split_ifs with h
    · simp [h]
    · rw [List.foldl_append,
        ih (n / 10) (Nat.div_lt_self (Nat.pos_of_ne_zero h) (by norm_num))]
      show 10 * (n / 10) + n % 10 = n
      omega

theorem charToDecDigit_decDigitChar (d : Nat) (h : d < 10) :
    charToDecDigit (decDigitChar d) = some d := by
  interval_cases d <;> decide

theorem decReadNat_aux (ds : List Nat) (h : ∀ d ∈ ds, d < 10) (a : Nat) :
    (ds.map decDigitChar).foldl
        (fun acc c => acc.bind fun x => (charToDecDigit c).map fun d => 10 * x + d)
        (some a) =
      some (ds.foldl (fun x d => 10 * x + d) a) := by
  induction ds generalizing a with
  | nil => rfl
  | cons d rest ih =>
    have hd : d < 10 := h d (List.mem_cons_self d rest)
    simp only [List.map_cons, List.foldl_cons, Option.some_bind,
      charToDecDigit_decDigitChar d hd, Option.map_some']
    exact ih (fun x hx => h x (List.mem_cons_of_mem d hx)) (10 * a + d)

theorem decReadNat_decRenderNat (n : Nat) :
    decReadNat (decRenderNat n) = some n := by
  rw [decRenderNat]
  split_ifs with h
  · subst h
    decide
  · rw [decReadNat, decReadNat_aux (decDigits n) (decDigits_lt n) 0, decDigits_foldl]

theorem decRenderNat_ne_nil (n : Nat) : decRenderNat n ≠ [] := by
  rw [decRenderNat]
  split_ifs with h
  · simp
  · intro hc
    rw [List.map_eq_nil] at hc
    rw [decDigits_eq] at hc
    simp [h] at hc

theorem decRenderNat_mem_ne_minus (n : Nat) :
    ∀ c ∈ decRenderNat n, ¬ (c = '-') := by
  rw [decRenderNat]
  split_ifs with h
  · intro c hc
    rw [List.mem_singleton] at hc
    subst hc
    decide
  · intro c hc
    rw [List.mem_map] at hc
    obtain ⟨d, hd, rfl⟩ := hc
    have hlt : d < 10 := decDigits_lt n d hd
    interval_cases d <;> decide

theorem decReadInt_decRenderInt (v : Int) :
    decReadInt (decRenderInt v) = some v := by
  rw [decRenderInt]
  split_ifs with h
  · show decReadInt ('-' :: decRenderNat v.natAbs) = some v
    rw [decReadInt, if_pos rfl, decReadNat_decRenderNat]
    have hv : (-(v.natAbs : Int)) = v := by omega
    simp [hv]
    rw [abs_of_neg h, neg_neg]
  · rcases hcons : decRenderNat v.natAbs with _ | ⟨c, cs⟩
    · exact absurd hcons (decRenderNat_ne_nil v.natAbs)
    · have hne : ¬ (c = '-') :=
        decRenderNat_mem_ne_minus v.natAbs c (hcons ▸ List.mem_cons_self c cs)
      rw [decReadInt, if_neg hne, ← hcons, decReadNat_decRenderNat]
      have hv : ((v.natAbs : Int)) = v := by omega
      simp [hv]

theorem hexDigits_lt (n : Nat) : ∀ d ∈ hexDigits n, d < 16 := by
  induction n using Nat.strong_induction_on with
  | _ n ih =>
    rw [hexDigits_eq]
    split_ifs with h
    · intro d hd
      exact absurd hd (List.not_mem_nil d)
    · intro d hd
      rw [List.mem_append] at hd
      rcases hd with hd | hd
      · exact ih _ (Nat.div_lt_self (Nat.pos_of_ne_zero h) (by norm_num)) d hd
      · rw [List.mem_singleton] at hd
        subst hd
        exact Nat.mod_lt _ (by norm_num)

theorem hexDigits_foldl (n : Nat) :
    (hexDigits n).foldl (fun a d => 16 * a + d) 0 = n := by
  induction n using Nat.strong_induction_on with
  | _ n ih =>
    rw [hexDigits_eq]
    split_ifs with h
    · simp [h]
    · rw [List.foldl_append,
        ih (n / 16) (Nat.div_lt_self (Nat.pos_of_ne_zero h) (by norm_num))]
      show 16 * (n / 16) + n % 16 = n
      omega

theorem charToHexDigit_hexDigitChar (d : Nat) (h : d < 16) :
    charToHexDigit (hexDigitChar d) = some d := by
  interval_cases d <;> decide

theorem hexReadNat_aux (ds : List Nat) (h : ∀ d ∈ ds, d < 16) (a : Nat) :
    (ds.map hexDigitChar).foldl
        (fun acc c => acc.bind fun x => (charToHexDigit c).map fun d => 16 * x + d)
        (some a) =
      some (ds.foldl (fun x d => 16 * x + d) a) := by
  induction ds generalizing a with
  | nil => rfl
  | cons d rest ih =>
    have hd : d < 16 := h d (List.mem_cons_self d rest)
    simp only [List.map_cons, List.foldl_cons, Option.some_bind,
      charToHexDigit_hexDigitChar d hd, Option.map_some']
    exact ih (fun x hx => h x (List.mem_cons_of_mem d hx)) (16 * a + d)

theorem hexReadNat_replicate_zero (k : Nat) (cs : List Char) :
    hexReadNat (List.replicate k '0' ++ cs) = hexReadNat cs := by
  induction k with
  | zero => rfl
  | succ m ih =>
    rw [List.replicate_succ, List.cons_append]
    show (List.replicate m '0' ++ cs).foldl _ _ = _
    exact ih

theorem hexReadNat_hexRenderPad8 (n : Nat) :
    hexReadNat (hexRenderPad8 n) = some n := by
  rw [hexRenderPad8]
  show hexReadNat (List.replicate _ '0' ++ _) = some n
  rw [hexReadNat_replicate_zero]
  split_ifs with h
  · subst h
    decide
  · rw [hexReadNat, hexReadNat_aux (hexDigits n) (hexDigits_lt n) 0, hexDigits_foldl]

theorem hexRenderPad8_length (n : Nat) : 8 ≤ (hexRenderPad8 n).length := by
  rw [hexRenderPad8]
  show (List.replicate _ '0' ++ _).length ≥ 8
  rw [List.length_append, List.length_replicate]
  omega

theorem card_filter_mod (W q e : Nat) (hW : 0 < W) (he : e < W) :
    ((Finset.range (W * q)).filter (fun d => d % W = e)).card = q := by
  have hbij : ((Finset.range (W * q)).filter (fun d => d % W = e)).card =
      (Finset.range q).card := by
    refine Finset.card_bij' (fun d _ => d / W) (fun k _ => W * k + e) ?_ ?_ ?_ ?_
    · intro d hd
      rw [Finset.mem_filter, Finset.mem_range] at hd
      rw [Finset.mem_range, Nat.div_lt_iff_lt_mul hW]
      rw [Nat.mul_comm] at hd
      exact hd.1
    · intro k hk
      rw [Finset.mem_range] at hk
      rw [Finset.mem_filter, Finset.mem_range]
      constructor
      · have h1 : W * (k + 1) ≤ W * q := Nat.mul_le_mul_left W hk
        have h2 : W * k + e < W * (k + 1) := by
          rw [Nat.mul_succ]
          omega
        exact lt_of_lt_of_le h2 h1
      · rw [Nat.mul_add_mod, Nat.mod_eq_of_lt he]
    · intro d hd
      rw [Finset.mem_filter] at hd
      show W * (d / W) + e = d
      rw [← hd.2]
      exact Nat.div_add_mod d W
    · intro k _
      show (W * k + e) / W = k
      rw [Nat.mul_add_div hW, Nat.div_eq_of_lt he, Nat.add_zero]
  rw [hbij, Finset.card_range]

theorem exp64_uniform (e : Nat) (he : e < 64) :
    ((Finset.range (2 ^ 64)).filter (fun d => exp64OfDraw d = e)).card = 2 ^ 58 := by
  have hfil : (Finset.range (2 ^ 64)).filter (fun d => exp64OfDraw d = e) =
      (Finset.range (2 ^ 64)).filter (fun d => d % 64 = e) := by
    apply Finset.filter_congr
    intro d hd
    rw [Finset.mem_range] at hd
    rw [exp64OfDraw, Nat.mod_eq_of_lt hd]
  rw [hfil, show (2 : Nat) ^ 64 = 64 * 2 ^ 58 by norm_num]
  exact card_filter_mod 64 (2 ^ 58) e (by norm_num) he

theorem exp32_uniform (e : Nat) (he : e < 32) :
    ((Finset.range (2 ^ 31)).filter (fun d => exp32OfDraw d = e)).card = 2 ^ 26 := by
  have hfil : (Finset.range (2 ^ 31)).filter (fun d => exp32OfDraw d = e) =
      (Finset.range (2 ^ 31)).filter (fun d => d % 32 = e) := by
    apply Finset.filter_congr
    intro d hd
    rw [Finset.mem_range] at hd
    rw [exp32OfDraw, Nat.mod_eq_of_lt hd]
  rw [hfil, show (2 : Nat) ^ 31 = 32 * 2 ^ 26 by norm_num]
  exact card_filter_mod 32 (2 ^ 26) e (by norm_num) he

theorem int64Entry_modulo_run (run_length : Nat) (s : Nat → Nat) (r : Nat)
    (hr : r % run_length = 0) :
    ∀ j, j < run_length →
      (int64Entry run_length s (r + j)).modulo = (int64Entry run_length s r).modulo := by
  intro j
  induction j with
  | zero => intro _; rfl
  | succ m ih =>
    intro hm
    have hne : (r + m + 1) % run_length ≠ 0 := by
      rw [show r + m + 1 = r + (m + 1) from rfl, Nat.add_mod, hr, Nat.zero_add,
        Nat.mod_eq_of_lt hm, Nat.mod_eq_of_lt hm]
      omega
    exact (int64Entry_modulo_const run_length s (r + m) hne).trans (ih (by omega))

/-- Claim C1: for the int64 varied-bit-width generator with positive
num_values and run_length, the value emitted at every position i below
num_values is defined, nonnegative and strictly below the power-of-two
modulus active for the run containing i (the unsigned reading of the
stored modulo variable); the exponent can reach 63, where the modulus is
2 ^ 63 and the value still arises by unsigned remainder of the 64-bit
draw. -/
theorem int64_values_below_modulus (num_values run_length : Nat) (s : Nat → Nat)
    (hL : 0 < run_length) (i : Nat) (hi : i < num_values) :
    ∃ en : GenEntry,
      (generate_int64_delta_varied_bit_width_table num_values run_length s)[i]? =
        some en ∧
      ∃ e : Nat, e < 64 ∧ asUInt64 en.modulo = 2 ^ e ∧
        ∃ v : Int, en.number = some v ∧ 0 ≤ v ∧ v < 2 ^ e := by
  refine ⟨int64Entry run_length s i, ?_, ?_⟩
  · rw [generate64_eq_map, List.getElem?_map, List.getElem?_range hi]
    rfl
  · exact int64Entry_number_spec run_length s hL i

/-- Witness for C1 at num_values 3, run_length 2, stream j maps to j,
position 1. -/
theorem int64_values_below_modulus_witness :
    ∃ en : GenEntry,
      (generate_int64_delta_varied_bit_width_table 3 2 witnessStreamA)[1]? =
        some en ∧
      ∃ e : Nat, e < 64 ∧ asUInt64 en.modulo = 2 ^ e ∧
        ∃ v : Int, en.number = some v ∧ 0 ≤ v ∧ v < 2 ^ e :=
  int64_values_below_modulus 3 2 witnessStreamA (by norm_num) 1 (by norm_num)

/-- Claim C2: in the int64 varied-bit-width generator with positive
run_length, a fresh modulus is drawn exactly at the positions i with
i mod run_length equal to 0, including position 0, and across every
other consecutive pair of positions the stored modulus is unchanged. -/
theorem int64_modulus_run_schedule (run_length : Nat) (s : Nat → Nat)
    (hL : 0 < run_length) (i : Nat) :
    ((int64Entry run_length s 0).newRun = true) ∧
    ((int64Entry run_length s i).newRun = decide (i % run_length = 0)) ∧
    ((i + 1) % run_length ≠ 0 →
      (int64Entry run_length s (i + 1)).modulo = (int64Entry run_length s i).modulo) := by
  refine ⟨?_, int64Entry_newRun run_length s i, int64Entry_modulo_const run_length s i⟩
  rw [int64Entry_newRun, Nat.zero_mod]
  rfl

/-- Witness for C2 at run_length 2, stream j maps to j, position 0. -/
theorem int64_modulus_run_schedule_witness :
    ((int64Entry 2 witnessStreamA 0).newRun = true) ∧
    ((int64Entry 2 witnessStreamA 1).modulo = (int64Entry 2 witnessStreamA 0).modulo) :=
  ⟨(int64_modulus_run_schedule 2 witnessStreamA (by norm_num) 0).1,
   (int64_modulus_run_schedule 2 witnessStreamA (by norm_num) 0).2.2 (by norm_num)⟩

/-- Claim C3: the int64 varied-bit-width generator emits exactly
num_values entries for every positive num_values and run_length; with
num_values 10 and run_length 5 exactly two moduli are drawn, covering
positions 0 to 4 and 5 to 9; with num_values 1 and run_length 1000
exactly one modulus is drawn; and whenever run_length exceeds num_values
one single modulus covers the whole column. -/
theorem int64_column_length_and_runs (num_values run_length : Nat) (s : Nat → Nat)
    (h0 : 0 < num_values) (hL : 0 < run_length) :
    ((generate_int64_delta_varied_bit_width_table num_values run_length s).length =
      num_values) ∧
    ((generate_int64_delta_varied_bit_width_table 10 5 s).countP
        (fun e => e.newRun) = 2) ∧
    (∃ m1 m2 : Int,
      (generate_int64_delta_varied_bit_width_table 10 5 s).map (fun e => e.modulo) =
        List.replicate 5 m1 ++ List.replicate 5 m2) ∧
    ((generate_int64_delta_varied_bit_width_table 1 1000 s).countP
        (fun e => e.newRun) = 1) ∧
    (num_values < run_length →
      (generate_int64_delta_varied_bit_width_table num_values run_length s).countP
          (fun e => e.newRun) = 1 ∧
      ∃ m : Int,
        (generate_int64_delta_varied_bit_width_table num_values run_length s).map
            (fun e => e.modulo) = List.replicate num_values m) := by
  refine ⟨generate64_length num_values run_length s, ?_, ?_, ?_, ?_⟩
  · rw [countP_newRun64]
    decide
  · refine ⟨(int64Entry 5 s 0).modulo, (int64Entry 5 s 5).modulo, ?_⟩
    have h1 : (int64Entry 5 s 1).modulo = (int64Entry 5 s 0).modulo :=
      int64Entry_modulo_run 5 s 0 rfl 1 (by norm_num)
    have h2 : (int64Entry 5 s 2).modulo = (int64Entry 5 s 0).modulo :=
      int64Entry_modulo_run 5 s 0 rfl 2 (by norm_num)
    have h3 : (int64Entry 5 s 3).modulo = (int64Entry 5 s 0).modulo :=
      int64Entry_modulo_run 5 s 0 rfl 3 (by norm_num)
    have h4 : (int64Entry 5 s 4).modulo = (int64Entry 5 s 0).modulo :=
      int64Entry_modulo_run 5 s 0 rfl 4 (by norm_num)
    have h6 : (int64Entry 5 s 6).modulo = (int64Entry 5 s 5).modulo :=
      int64Entry_modulo_run 5 s 5 rfl 1 (by norm_num)
    have h7 : (int64Entry 5 s 7).modulo = (int64Entry 5 s 5).modulo :=
      int64Entry_modulo_run 5 s 5 rfl 2 (by norm_num)
    have h8 : (int64Entry 5 s 8).modulo = (int64Entry 5 s 5).modulo :=
      int64Entry_modulo_run 5 s 5 rfl 3 (by norm_num)
    have h9 : (int64Entry 5 s 9).modulo = (int64Entry 5 s 5).modulo :=
      int64Entry_modulo_run 5 s 5 rfl 4 (by norm_num)
    rw [generate64_eq_map, List.map_map,
      show List.range 10 = [0, 1, 2, 3, 4, 5, 6, 7, 8, 9] from rfl]
    simp only [List.map_cons, List.map_nil, Function.comp_apply]
    rw [h1, h2, h3, h4, h6, h7, h8, h9]
    rfl
  · rw [countP_newRun64]
    decide
  · intro hlt
    constructor
    · rw [countP_newRun64]
      exact countP_boundary_of_lt num_values run_length h0 hlt
    · refine ⟨(int64Entry run_length s 0).modulo, ?_⟩
      rw [generate64_eq_map, List.map_map]
      have hmem : ∀ b ∈ (List.range num_values).map
          ((fun e => e.modulo) ∘ int64Entry run_length s),
          b = (int64Entry run_length s 0).modulo := by
        intro b hb
        rw [List.mem_map] at hb
        obtain ⟨i, hi, rfl⟩ := hb
        have hin : i < num_values := List.mem_range.mp hi
        exact int64Entry_modulo_eq_first run_length s i (lt_trans hin hlt)
      have hrep := List.eq_replicate_of_mem hmem
      rw [List.length_map, List.length_range] at hrep
      exact hrep

/-- Witness for C3 at num_values 2, run_length 3, stream j maps to j. -/
theorem int64_column_length_and_runs_witness :
    ((generate_int64_delta_varied_bit_width_table 2 3 witnessStreamA).length = 2) ∧
    ((generate_int64_delta_varied_bit_width_table 2 3 witnessStreamA).countP
        (fun e => e.newRun) = 1) :=
  ⟨(int64_column_length_and_runs 2 3 witnessStreamA (by norm_num) (by norm_num)).1,
   ((int64_column_length_and_runs 2 3 witnessStreamA (by norm_num) (by norm_num)).2.2.2.2
     (by norm_num)).1⟩

/-- Claim C4: in both varied-bit-width generators every drawn modulus is
a power of two 2 to the e with e below the bit width (64 or 32), so the
modulus bounding the values lies between 2 to the 0 and 2 to the width
minus 1; moreover the exponent selection is uniform: each residue below
the width has the same number of preimages over the full draw space of
the respective engine. -/
theorem modulus_power_of_two_uniform (run_length : Nat) (s : Nat → Nat)
    (hL : 0 < run_length) (i : Nat) :
    (∃ e : Nat, e < 64 ∧ asUInt64 (int64Entry run_length s i).modulo = 2 ^ e ∧
      1 ≤ asUInt64 (int64Entry run_length s i).modulo ∧
      asUInt64 (int64Entry run_length s i).modulo ≤ 2 ^ 63) ∧
    (∃ e : Nat, e < 32 ∧ asUInt32 (int32Entry run_length s i).modulo = 2 ^ e ∧
      1 ≤ asUInt32 (int32Entry run_length s i).modulo ∧
      asUInt32 (int32Entry run_length s i).modulo ≤ 2 ^ 31) ∧
    (∀ e : Nat, e < 64 →
      ((Finset.range (2 ^ 64)).filter (fun d => exp64OfDraw d = e)).card = 2 ^ 58) ∧
    (∀ e : Nat, e < 32 →
      ((Finset.range (2 ^ 31)).filter (fun d => exp32OfDraw d = e)).card = 2 ^ 26) := by
  refine ⟨?_, ?_, exp64_uniform, exp32_uniform⟩
  · obtain ⟨e, he, hmu⟩ := asUInt64_modulo_shape run_length s hL i
    refine ⟨e, he, hmu, ?_, ?_⟩
    · rw [hmu]
      exact Nat.one_le_two_pow
    · rw [hmu]
      exact Nat.pow_le_pow_right (by norm_num) (by omega)
  · obtain ⟨e, he, hmu⟩ := asUInt32_modulo_shape run_length s hL i
    refine ⟨e, he, hmu, ?_, ?_⟩
    · rw [hmu]
      exact Nat.one_le_two_pow
    · rw [hmu]
      exact Nat.pow_le_pow_right (by norm_num) (by omega)

/-- Witness for C4 at run_length 2, stream j maps to j, position 0. -/
theorem modulus_power_of_two_uniform_witness :
    ∃ e : Nat, e < 64 ∧ asUInt64 (int64Entry 2 witnessStreamA 0).modulo = 2 ^ e ∧
      1 ≤ asUInt64 (int64Entry 2 witnessStreamA 0).modulo ∧
      asUInt64 (int64Entry 2 witnessStreamA 0).modulo ≤ 2 ^ 63 :=
  (modulus_power_of_two_uniform 2 witnessStreamA (by norm_num) 0).1

/-- Claim C5 counterexample: the int32 varied-bit-width generator does
not draw from the 64-bit mt19937_64 engine, so the emitter does not use
a 64-bit generator regardless of target column width. -/
theorem int32_source_not_mt19937_64 :
    int32GenRandSource ≠ RandSource.mt19937_64 := by decide

/-- Claim C5 as amended: the int64 varied-bit-width generator draws from
the 64-bit mt19937_64 engine, while the int32 generator draws from the C
library rand function, whose draws stay below 2 ^ 31; only the
mt19937_64 draw space reaches 64-bit values. -/
theorem generator_rand_sources :
    int64GenRandSource = RandSource.mt19937_64 ∧
    int32GenRandSource = RandSource.c_rand ∧
    (∀ (s : Nat → Nat) (p : Nat), drawRand s p < 2 ^ 31) ∧
    (∃ (s : Nat → Nat) (p : Nat), 2 ^ 31 ≤ draw64 s p) := by
  refine ⟨rfl, rfl, ?_, ⟨fun _ => 2 ^ 31, 0, ?_⟩⟩
  · intro s p
    exact Nat.mod_lt _ (by norm_num)
  · show 2 ^ 31 ≤ 2 ^ 31 % 2 ^ 64
    rw [Nat.mod_eq_of_lt (by norm_num)]

/-- Claim C6: the int64 varied-bit-width generator is a pure function of
its configuration and of the draw stream: two runs with the same
num_values and run_length whose streams agree on every draw the run
consumes produce identical entry sequences.  With the engine seeded from
a fixed seed the stream is fixed, so two runs with identical
configuration and seed produce identical output. -/
theorem int64_generation_deterministic (num_values run_length : Nat)
    (s1 s2 : Nat → Nat)
    (hs : ∀ j, j < (int64State run_length s1 num_values).2 → s1 j = s2 j) :
    generate_int64_delta_varied_bit_width_table num_values run_length s1 =
      generate_int64_delta_varied_bit_width_table num_values run_length s2 :=
  generate64_congr num_values run_length s1 s2 hs

/-- Witness for C6: two streams equal on the four consumed draws and
different beyond them give identical runs at num_values 2, run_length 1. -/
theorem int64_generation_deterministic_witness :
    generate_int64_delta_varied_bit_width_table 2 1 witnessStreamA =
      generate_int64_delta_varied_bit_width_table 2 1 witnessStreamB :=
  int64_generation_deterministic 2 1 witnessStreamA witnessStreamB (by decide)

/-- Claim C7: with the recorder active, parsing each line of the decimal
sidecar back as an integer recovers exactly the in-memory column value
sequence, in order. -/
theorem dec_sidecar_round_trip (num_values run_length : Nat) (s : Nat → Nat) :
    (decSidecarLines true num_values run_length s).map decReadInt =
      (int64Column num_values run_length s).map some := by
  show ((int64Column num_values run_length s).map decRenderInt).map decReadInt = _
  rw [List.map_map]
  apply List.map_congr_left
  intro v _
  exact decReadInt_decRenderInt v

/-- Claim C8 counterexample: the hexadecimal sidecar pads only to a
minimum field width of 8, so a run whose values need more than 8 hex
digits produces lines of different lengths; with two runs drawing value
0 and value 2 ^ 35 the two lines have lengths 8 and 9, hence no fixed
width is common to all lines. -/
theorem hex_sidecar_width_not_common :
    ((hexSidecarLines true 2 1 hexWitnessStream).map List.length = [8, 9]) ∧
    ¬ (∀ l1 ∈ hexSidecarLines true 2 1 hexWitnessStream,
        ∀ l2 ∈ hexSidecarLines true 2 1 hexWitnessStream,
          l1.length = l2.length) := by decide

/-- Claim C8 as amended: every line of the hexadecimal sidecar is the
emitted value rendered in hexadecimal and left zero padded to a minimum
width of 8 characters (values needing more digits give longer lines, so
the width is a minimum, not a width common to all lines); parsing each
line back recovers the unsigned reading of the value. -/
theorem hex_sidecar_lines_spec (num_values run_length : Nat) (s : Nat → Nat) :
    ((hexSidecarLines true num_values run_length s).map hexReadNat =
      (int64Column num_values run_length s).map (fun v => some (asUInt64 v))) ∧
    (∀ l ∈ hexSidecarLines true num_values run_length s, 8 ≤ l.length) := by
  constructor
  · show ((int64Column num_values run_length s).map hexLineInt64).map hexReadNat = _
    rw [List.map_map]
    apply List.map_congr_left
    intro v _
    exact hexReadNat_hexRenderPad8 (asUInt64 v)
  · intro l hl
    rw [show hexSidecarLines true num_values run_length s =
        (int64Column num_values run_length s).map hexLineInt64 from rfl,
      List.mem_map] at hl
    obtain ⟨v, _, rfl⟩ := hl
    exact hexRenderPad8_length (asUInt64 v)

/-- Witness for C8 as amended, at the concrete run of the
counterexample: the parsed lines match the column and the first line,
the rendering of value 0, has at least 8 characters. -/
theorem hex_sidecar_lines_spec_witness :
    ((hexSidecarLines true 2 1 hexWitnessStream).map hexReadNat =
      (int64Column 2 1 hexWitnessStream).map (fun v => some (asUInt64 v))) ∧
    (8 ≤ (hexLineInt64 0).length) :=
  ⟨(hex_sidecar_lines_spec 2 1 hexWitnessStream).1,
   (hex_sidecar_lines_spec 2 1 hexWitnessStream).2 (hexLineInt64 0) (by decide)⟩

/-- Claim C9 counterexample: with a single argument the usage path is
taken with exit status 1, but the usage text goes to standard output,
not to standard error. -/
theorem usage_not_on_stderr :
    usageCheck 1 = some (ConsoleChannel.stdout, 1) ∧
    ConsoleChannel.stdout ≠ ConsoleChannel.stderr := by decide

/-- Claim C9 as amended: with fewer than 2 arguments the driver prints
the usage message to standard output and exits with status 1; with at
least 2 arguments the usage path is not taken. -/
theorem usage_path_spec (argc : Nat) :
    (argc < 2 → usageCheck argc = some (ConsoleChannel.stdout, 1)) ∧
    (2 ≤ argc → usageCheck argc = none) := by
  constructor
  · intro h
    rw [usageCheck, if_pos h]
  · intro h
    rw [usageCheck, if_neg (by omega)]

/-- Witness for C9 as amended at argc 1 and argc 2. -/
theorem usage_path_spec_witness :
    usageCheck 1 = some (ConsoleChannel.stdout, 1) ∧ usageCheck 2 = none :=
  ⟨(usage_path_spec 1).1 (by norm_num), (usage_path_spec 2).2 (by norm_num)⟩

/-- Claim C10: in both varied-bit-width generators the modulo variable
starts at 0, but with positive run_length the first iteration satisfies
the boundary condition and stores a nonzero power-of-two modulus before
the first remainder, so no remainder is ever evaluated with a zero
divisor: every entry of either generator carries a defined number. -/
theorem modulo_never_zero_divisor (run_length : Nat) (s : Nat → Nat)
    (hL : 0 < run_length) (i : Nat) :
    ((int64State run_length s 0).1 = 0) ∧
    ((int32State run_length s 0).1 = 0) ∧
    ((int64Entry run_length s 0).newRun = true) ∧
    ((int32Entry run_length s 0).newRun = true) ∧
    (asUInt64 (int64Entry run_length s i).modulo ≠ 0) ∧
    ((int32Entry run_length s i).modulo ≠ 0) ∧
    ((int64Entry run_length s i).number.isSome = true) ∧
    ((int32Entry run_length s i).number.isSome = true) := by
  refine ⟨rfl, rfl, ?_, ?_, ?_, ?_,
    int64Entry_number_isSome run_length s hL i,
    int32Entry_number_isSome run_length s hL i⟩
  · rw [int64Entry_newRun, Nat.zero_mod]
    rfl
  · rw [int32Entry_newRun, Nat.zero_mod]
    rfl
  · obtain ⟨e, he, hmu⟩ := asUInt64_modulo_shape run_length s hL i
    rw [hmu]
    exact Nat.pos_iff_ne_zero.mp (Nat.pos_pow_of_pos e (by norm_num))
  · obtain ⟨e, he, hm⟩ := int32Entry_modulo_shape run_length s hL i
    rw [hm]
    exact asInt32_ne_zero _ (Nat.pos_pow_of_pos e (by norm_num))
      (Nat.pow_lt_pow_right (by norm_num) he)

/-- Witness for C10 at run_length 2, stream j maps to j, position 1. -/
theorem modulo_never_zero_divisor_witness :
    ((int64State 2 witnessStreamA 0).1 = 0) ∧
    ((int32State 2 witnessStreamA 0).1 = 0) ∧
    ((int64Entry 2 witnessStreamA 0).newRun = true) ∧
    ((int32Entry 2 witnessStreamA 0).newRun = true) ∧
    (asUInt64 (int64Entry 2 witnessStreamA 1).modulo ≠ 0) ∧
    ((int32Entry 2 witnessStreamA 1).modulo ≠ 0) ∧
    ((int64Entry 2 witnessStreamA 1).number.isSome = true) ∧
    ((int32Entry 2 witnessStreamA 1).number.isSome = true) :=
  modulo_never_zero_divisor 2 witnessStreamA (by norm_num) 1
